import Mathlib

/-!
Verification of the goread feed-synchronization engine (main.go).

The Go entities and the update path are embedded shallowly:

* `time.Time` values become `Nat` nanosecond counts, with the Go zero
  time represented by `0` (`IsZero` becomes `= 0`, `Equal` becomes `=`,
  `Before` becomes `<`).
* The datastore's per-feed Story records become a lookup function
  `String → Option Story` keyed by the story id (the Go side keys child
  `Story` entities by `Id` under the feed's key).
* `scheduleNextUpdate` and `updateAverage` are called by `updateFeed`
  but their definitions are not part of these sources; `updateFeed`
  therefore takes them as parameters, and executable stand-ins modelled
  from the spec are provided for concrete runs.
-/

set_option maxHeartbeats 1000000

namespace Goread

/-- Nanoseconds per hour, matching Go's `time.Hour`. -/
def nsPerHour : Nat := 3600 * 1000000000

/-- The `Feed` datastore entity, restricted to the fields the update path
reads or writes (main.go; the struct declaration itself is in a file
outside these sources, its fields are fixed by their uses here).
Times are nanosecond counts, `0` is Go's zero time. -/
structure Feed where
  Url : String
  Title : String
  Link : String
  Updated : Nat
  Date : Nat
  Average : Nat
  LastViewed : Nat
  NextUpdate : Nat
  Errors : Nat
deriving Repr, DecidableEq

/-- Backoff delay in hours as a function of the consecutive-error count
*after* the increment, extracted from the `feedError` closure in
`UpdateFeed` (main.go 800-813): `v := f.Errors + 1` (post-increment),
capped at `24 * 7`, with the special case of delay `0` on the very
first error. -/
def backoffDelayHours (errors : Nat) : Nat :=
  if errors + 1 > 24 * 7 then 24 * 7
  else if errors = 1 then 0
  else errors + 1

/-- The `feedError` closure of `UpdateFeed` (main.go 800-813): bump the
consecutive-error count, reschedule `NextUpdate` by the backoff delay,
and return the feed record, which the closure then persists with
`gn.Put(&f)` even though the fetch failed. -/
def feedError (now : Nat) (f : Feed) : Feed :=
  { f with
    Errors := f.Errors + 1
    NextUpdate := now + backoffDelayHours (f.Errors + 1) * nsPerHour }

/-- C4: on every poll failure the consecutive-error counter is
incremented, and with `e` the count after the increment the persisted
feed's next-due is `now` plus `min (e + 1) 168` hours, except that when
`e = 1` the delay is `0` hours; `feedError` returns exactly the record
passed to `gn.Put`, so the bumped count and new next-due are persisted
despite the failed fetch. -/
theorem feedError_backoff (f : Feed) (now : Nat) :
    (feedError now f).Errors = f.Errors + 1 ∧
      (feedError now f).NextUpdate =
        now + (if f.Errors + 1 = 1 then 0 else min (f.Errors + 1 + 1) 168) * nsPerHour := by
  refine ⟨rfl, ?_⟩
  show now + backoffDelayHours (f.Errors + 1) * nsPerHour = _
  have h : backoffDelayHours (f.Errors + 1)
      = if f.Errors + 1 = 1 then 0 else min (f.Errors + 1 + 1) 168 := by
    unfold backoffDelayHours
    split_ifs <;> omega
  rw [h]

/-- C5 counterexample: the claim maps error count `2` to a delay of `2`
hours, but the code's backoff maps it to `3` hours
(`v := errors + 1` with no first-error exception applying). -/
theorem backoff_delay_at_two : backoffDelayHours 2 = 3 ∧ backoffDelayHours 2 ≠ 2 := by
  decide

/-- C5 (amended): the backoff delay maps the post-increment error count
`e` to `0` hours when `e = 1` and `min (e + 1) 168` hours otherwise (not
to `e` hours); on the reachable counts `e ≥ 1` it is never decreasing,
and it never exceeds the 168-hour cap. -/
theorem backoff_monotone_capped :
    (∀ e, 2 ≤ e → backoffDelayHours e = min (e + 1) 168) ∧
      backoffDelayHours 1 = 0 ∧
      (∀ e e', 1 ≤ e → e ≤ e' → backoffDelayHours e ≤ backoffDelayHours e') ∧
      ∀ e, backoffDelayHours e ≤ 168 := by
  refine ⟨?_, rfl, ?_, ?_⟩
  · intro e he
    unfold backoffDelayHours
    split_ifs <;> omega
  · intro e e' h1 h2
    unfold backoffDelayHours
    split_ifs <;> omega
  · intro e
    unfold backoffDelayHours
    split_ifs <;> omega

/-- C5 witness: the amended backoff facts evaluated at concrete counts. -/
theorem backoff_monotone_capped_witness :
    2 ≤ 5 ∧ backoffDelayHours 5 = min 6 168 ∧
      1 ≤ 2 ∧ 2 ≤ 50 ∧ backoffDelayHours 2 ≤ backoffDelayHours 50 ∧
      backoffDelayHours 500 ≤ 168 :=
  ⟨by decide, backoff_monotone_capped.1 5 (by decide), by decide, by decide,
    backoff_monotone_capped.2.2.1 2 50 (by decide) (by decide),
    backoff_monotone_capped.2.2.2 500⟩

/-- The `Story` datastore entity, restricted to the fields the update
path reads or writes (declared outside these sources, fields fixed by
their uses in main.go). `content` is the unexported body field whose
bytes feed the `StoryContent` write. -/
structure Story where
  Id : String
  Created : Nat
  Published : Nat
  Updated : Nat
  content : String
deriving Repr, DecidableEq

/-- Copy-forward of immutable story fields (main.go 713-719): when the
prior stored record has non-zero `Created` or `Published`, the incoming
story keeps the prior value. -/
def carryForward (s prior : Story) : Story :=
  let s1 := if prior.Created ≠ 0 then { s with Created := prior.Created } else s
  if prior.Published ≠ 0 then { s1 with Published := prior.Published } else s1

/-- Per-story reconciliation decision (main.go 710-722): a story with no
prior record is written as-is; a story with a prior record is rewritten
only if its claimed update time is non-zero and differs from the stored
one, or `updateAll` is set, in which case immutable fields are copied
forward. `none` means the story is not written. -/
def diffStep (prior : Option Story) (s : Story) (updateAll : Bool) : Option Story :=
  match prior with
  | none => some s
  | some p =>
    if (s.Updated ≠ 0 ∧ s.Updated ≠ p.Updated) ∨ updateAll = true then
      some (carryForward s p)
    else none

/-- The story-diff loop of `updateFeed` (main.go 698-722): the prior
records for exactly the incoming identities are fetched (`GetMulti`) and
each incoming story is kept iff `diffStep` writes it. -/
def diffStories (stories : List Story) (store : String → Option Story)
    (updateAll : Bool) : List Story :=
  stories.filterMap (fun s => diffStep (store s.Id) s updateAll)

/-- A datastore put of one story record, keyed by its id. -/
def putStory (store : String → Option Story) (w : Story) : String → Option Story :=
  fun i => if i = w.Id then some w else store i

/-- The effect on the per-feed story records of the final `PutMulti`
(main.go 763): all queued story writes are applied. -/
def applyWrites (store : String → Option Story) (ws : List Story) :
    String → Option Story :=
  ws.foldl putStory store

/-- The already-updated short-circuit test of `updateFeed` (main.go 687):
the parsed document declares an update time, it equals the stored one,
and neither `updateAll` nor `fromSub` is set. -/
def alreadyUpdated (f0 feed : Feed) (updateAll fromSub : Bool) : Bool :=
  (feed.Updated != 0) && (f0.Updated == feed.Updated) && !updateAll && !fromSub

/-- The push clamp at the end of `updateFeed` (main.go 755-760): on a
push-originated update the scheduled next-due is raised to at least
`now + 6` hours (`if f.NextUpdate.Before(wait) { f.NextUpdate = wait }`). -/
def pushFloor (now : Nat) (fromSub : Bool) (f : Feed) : Feed :=
  if fromSub = true ∧ f.NextUpdate < now + 6 * nsPerHour then
    { f with NextUpdate := now + 6 * nsPerHour }
  else f

/-- Result of one `updateFeed` run: the feed record included in the final
put, the story records included in the final `PutMulti` (each of which
also gets a `StoryContent` write), and whether the already-updated
short circuit was taken. -/
structure UpdateResult where
  feed : Feed
  storyWrites : List Story
  shortCircuit : Bool
deriving Repr, DecidableEq

/-- `updateFeed` (main.go 658-768). `sched` stands for
`scheduleNextUpdate` and `updAvg` for `updateAverage`
(`updAvg now oldAverage previousDate count`), both called by the source
but defined outside it; `f0` is the stored feed record fetched by
`gn.Get`, `feed`/`stories` the freshly parsed document, `store` the
stored per-feed story records. Mirrors the source line by line: the
bookkeeping fields are copied from the stored record onto the parsed
feed, the short circuit puts only the feed, otherwise the story diff is
computed, the average/date bookkeeping runs iff at least one story is
written, the next update is scheduled, and a push-originated run raises
it to at least six hours out. -/
def updateFeed (sched : Feed → Nat) (updAvg : Nat → Nat → Nat → Nat → Nat)
    (now : Nat) (f0 feed : Feed) (stories : List Story)
    (store : String → Option Story) (updateAll fromSub updateLast : Bool) :
    UpdateResult :=
  let fa : Feed :=
    { feed with
      Updated := if feed.Updated ≠ 0 then feed.Updated else f0.Updated
      Date := f0.Date
      Average := f0.Average
      LastViewed := if updateLast = true then now else f0.LastViewed }
  if alreadyUpdated f0 feed updateAll fromSub = true then
    let fb : Feed := { fa with Updated := now }
    { feed := { fb with NextUpdate := sched fb }, storyWrites := [], shortCircuit := true }
  else
    let ws : List Story := diffStories stories store updateAll
    let fb : Feed :=
      if ws.length > 0 then
        { fa with
          Average := updAvg now fa.Average fa.Date ws.length
          Date := now
          Updated := if feed.Updated ≠ 0 then fa.Updated else now }
      else fa
    let fc : Feed := { fb with NextUpdate := sched fb }
    { feed := pushFloor now fromSub fc, storyWrites := ws, shortCircuit := false }

/-- Modelled from the spec: `scheduleNextUpdate` is called by
`updateFeed` but not defined in these sources; §4.4 gives
baseline next-due = now + average-update-interval, bounded to sane
min/max (here a floor of half an hour and a ceiling of seven days). -/
def scheduleNextUpdate (now : Nat) (f : Feed) : Nat :=
  now + min (max f.Average (nsPerHour / 2)) (7 * 24 * nsPerHour)

/-- Modelled from the spec: `updateAverage` is called by `updateFeed`
but not defined in these sources; §4.3 step 3 recomputes the moving
estimate from the elapsed time since the feed's previous content
timestamp divided by the count of newly written stories, weighted into
the old average. -/
def updateAverage (now avg prevDate count : Nat) : Nat :=
  if prevDate = 0 ∨ count = 0 then avg
  else (3 * avg + (now - prevDate) / count) / 4

theorem pushFloor_Errors (now : Nat) (fs : Bool) (f : Feed) :
    (pushFloor now fs f).Errors = f.Errors := by
  unfold pushFloor
  split_ifs <;> rfl

theorem pushFloor_LastViewed (now : Nat) (fs : Bool) (f : Feed) :
    (pushFloor now fs f).LastViewed = f.LastViewed := by
  unfold pushFloor
  split_ifs <;> rfl

theorem updateFeed_errors (sched : Feed → Nat) (updAvg : Nat → Nat → Nat → Nat → Nat)
    (now : Nat) (f0 feed : Feed) (stories : List Story)
    (store : String → Option Story) (ua fs ul : Bool) :
    (updateFeed sched updAvg now f0 feed stories store ua fs ul).feed.Errors
      = feed.Errors := by
  cases h : alreadyUpdated f0 feed ua fs
  · unfold updateFeed
    simp only [h, Bool.false_eq_true, if_false]
    rw [pushFloor_Errors]
    split_ifs <;> rfl
  · unfold updateFeed
    rw [h]
    rfl

theorem updateFeed_shortCircuit (sched : Feed → Nat) (updAvg : Nat → Nat → Nat → Nat → Nat)
    (now : Nat) (f0 feed : Feed) (stories : List Story)
    (store : String → Option Story) (ua fs ul : Bool) :
    (updateFeed sched updAvg now f0 feed stories store ua fs ul).shortCircuit
      = alreadyUpdated f0 feed ua fs := by
  cases h : alreadyUpdated f0 feed ua fs
  · unfold updateFeed
    rw [h]
    rfl
  · unfold updateFeed
    rw [h]
    rfl

theorem updateFeed_storyWrites (sched : Feed → Nat) (updAvg : Nat → Nat → Nat → Nat → Nat)
    (now : Nat) (f0 feed : Feed) (stories : List Story)
    (store : String → Option Story) (ua fs ul : Bool) :
    (updateFeed sched updAvg now f0 feed stories store ua fs ul).storyWrites
      = if alreadyUpdated f0 feed ua fs = true then [] else diffStories stories store ua := by
  cases h : alreadyUpdated f0 feed ua fs
  · unfold updateFeed
    rw [h]
    rfl
  · unfold updateFeed
    rw [h]
    rfl

theorem updateFeed_lastViewed (sched : Feed → Nat) (updAvg : Nat → Nat → Nat → Nat → Nat)
    (now : Nat) (f0 feed : Feed) (stories : List Story)
    (store : String → Option Story) (ua fs ul : Bool) :
    (updateFeed sched updAvg now f0 feed stories store ua fs ul).feed.LastViewed
      = if ul = true then now else f0.LastViewed := by
  cases h : alreadyUpdated f0 feed ua fs
  · unfold updateFeed
    simp only [h, Bool.false_eq_true, if_false]
    rw [pushFloor_LastViewed]
    split_ifs <;> rfl
  · unfold updateFeed
    simp only [h, if_true]

theorem pushFloor_le (now : Nat) (f : Feed) :
    now + 6 * nsPerHour ≤ (pushFloor now true f).NextUpdate := by
  unfold pushFloor
  split_ifs with h
  · exact Nat.le_refl _
  · exact Nat.le_of_not_lt (fun hl => h ⟨rfl, hl⟩)

theorem updateFeed_not_short_feed (sched : Feed → Nat) (updAvg : Nat → Nat → Nat → Nat → Nat)
    (now : Nat) (f0 feed : Feed) (stories : List Story)
    (store : String → Option Story) (ua fs ul : Bool)
    (h : alreadyUpdated f0 feed ua fs = false) :
    ∃ f', (updateFeed sched updAvg now f0 feed stories store ua fs ul).feed
      = pushFloor now fs f' := by
  unfold updateFeed
  simp only [h, Bool.false_eq_true, if_false]
  exact ⟨_, rfl⟩

/-- C1 counterexample: a push-originated update (`fromSub = true`) of a
feed whose stored average interval is 10 hours persists
next-due = now + 10 hours, strictly later than now + 6 hours: the code
raises the scheduled next-due to at least `now + 6h` (a max), it does
not pull it down to at most `now + 6h` (a min), so the claimed bound
fails. -/
theorem updateFeed_push_exceeds_six_hours :
    (updateFeed (scheduleNextUpdate 1000) updateAverage 1000
        ⟨"u", "", "", 5, 0, 10 * nsPerHour, 0, 0, 0⟩
        ⟨"u", "", "", 7, 0, 0, 0, 0, 0⟩ [] (fun _ => none)
        false true false).feed.NextUpdate = 1000 + 10 * nsPerHour ∧
      ¬(1000 + 10 * nsPerHour ≤ 1000 + 6 * nsPerHour) := by
  constructor
  · rfl
  · decide

/-- C1 (amended): on every push-originated reconciliation that reaches
the write path (`fromSub = true`), the persisted next-due is no
*earlier* than now + 6 hours, whatever `scheduleNextUpdate` computed:
the code takes the later of the scheduled time and now + 6 hours. -/
theorem updateFeed_push_min_delay (sched : Feed → Nat)
    (updAvg : Nat → Nat → Nat → Nat → Nat) (now : Nat) (f0 feed : Feed)
    (stories : List Story) (store : String → Option Story) (ua ul : Bool) :
    now + 6 * nsPerHour ≤
      (updateFeed sched updAvg now f0 feed stories store ua true ul).feed.NextUpdate := by
  have h : alreadyUpdated f0 feed ua true = false := by
    simp [alreadyUpdated]
  obtain ⟨f', hf⟩ := updateFeed_not_short_feed sched updAvg now f0 feed stories store ua true ul h
  rw [hf]
  exact pushFloor_le now f'

/-- C10 counterexample: with one newly seen story, the persisted `Date`
is the current time (100), not the stored record's value (3), so the
bookkeeping fields are not simply "taken from the stored Feed record",
and a fetched or pushed document that carries a new story does alter
`Date` (and `Average`). -/
theorem updateFeed_date_not_from_store :
    (updateFeed (scheduleNextUpdate 100) updateAverage 100
        ⟨"u", "", "", 0, 3, 0, 0, 0, 0⟩ ⟨"u", "", "", 0, 9, 0, 0, 0, 0⟩
        [⟨"a", 0, 0, 7, "x"⟩] (fun _ => none) false false false).feed.Date = 100 ∧
      (100 : Nat) ≠ 3 := by
  constructor
  · rfl
  · decide

/-- C10 (amended): the parsed document's own `Average`, `Date` and
`LastViewed` values never influence the update — replacing them by
arbitrary values leaves the entire result unchanged, because
`updateFeed` overwrites them with the stored record's values before any
use; and the persisted `LastViewed` equals the stored one except that it
becomes the current time exactly when `updateLast` is set. (`Date` and
`Average` may still be rewritten from the clock and the count of story
writes, per the counterexample.) -/
theorem updateFeed_bookkeeping_frame (sched : Feed → Nat)
    (updAvg : Nat → Nat → Nat → Nat → Nat) (now : Nat) (f0 feed : Feed)
    (stories : List Story) (store : String → Option Story) (ua fs ul : Bool) :
    (∀ a d lv,
      updateFeed sched updAvg now f0
          { feed with Average := a, Date := d, LastViewed := lv }
          stories store ua fs ul
        = updateFeed sched updAvg now f0 feed stories store ua fs ul) ∧
      (updateFeed sched updAvg now f0 feed stories store ua fs ul).feed.LastViewed
        = if ul = true then now else f0.LastViewed := by
  constructor
  · intro a d lv
    cases feed
    rfl
  · exact updateFeed_lastViewed sched updAvg now f0 feed stories store ua fs ul

theorem carryForward_Id (s p : Story) : (carryForward s p).Id = s.Id := by
  unfold carryForward
  split_ifs <;> rfl

theorem carryForward_Updated (s p : Story) : (carryForward s p).Updated = s.Updated := by
  unfold carryForward
  split_ifs <;> rfl

theorem carryForward_Created (s p : Story) :
    (carryForward s p).Created = if p.Created ≠ 0 then p.Created else s.Created := by
  unfold carryForward
  split_ifs <;> rfl

theorem diffStep_Id {prior : Option Story} {s w : Story} {ua : Bool}
    (h : diffStep prior s ua = some w) : w.Id = s.Id := by
  cases prior with
  | none =>
    simp only [diffStep, Option.some.injEq] at h
    rw [h]
  | some p =>
    simp only [diffStep] at h
    split_ifs at h
    · simp only [Option.some.injEq] at h
      rw [← h, carryForward_Id]

theorem diffStep_Updated {prior : Option Story} {s w : Story} {ua : Bool}
    (h : diffStep prior s ua = some w) : w.Updated = s.Updated := by
  cases prior with
  | none =>
    simp only [diffStep, Option.some.injEq] at h
    rw [h]
  | some p =>
    simp only [diffStep] at h
    split_ifs at h
    · simp only [Option.some.injEq] at h
      rw [← h, carryForward_Updated]

theorem mem_diffStories {l : List Story} {store : String → Option Story} {ua : Bool}
    {w : Story} (h : w ∈ diffStories l store ua) :
    ∃ s ∈ l, diffStep (store s.Id) s ua = some w := by
  simpa only [diffStories, List.mem_filterMap] using h

theorem diffStories_ids_sublist (l : List Story) (store : String → Option Story)
    (ua : Bool) :
    List.Sublist ((diffStories l store ua).map Story.Id) (l.map Story.Id) := by
  induction l with
  | nil => simp [diffStories]
  | cons a l ih =>
    simp only [diffStories] at ih ⊢
    cases h : diffStep (store a.Id) a ua with
    | none =>
      simp only [List.filterMap_cons, h, List.map_cons]
      exact List.Sublist.cons a.Id ih
    | some w =>
      simp only [List.filterMap_cons, h, List.map_cons, diffStep_Id h]
      exact List.Sublist.cons₂ a.Id ih

theorem diffStories_find (l : List Story) (store : String → Option Story) (ua : Bool)
    (hids : (l.map Story.Id).Nodup) {s : Story} (hs : s ∈ l) :
    (diffStories l store ua).find? (fun w => w.Id == s.Id)
      = diffStep (store s.Id) s ua := by
  induction l with
  | nil => cases hs
  | cons a l ih =>
    rw [List.map_cons, List.nodup_cons] at hids
    obtain ⟨ha, hl⟩ := hids
    simp only [diffStories] at ih ⊢
    rcases List.mem_cons.mp hs with rfl | hsl
    · cases h : diffStep (store s.Id) s ua with
      | some w =>
        simp only [List.filterMap_cons, h]
        rw [List.find?_cons_of_pos _ (by simp [diffStep_Id h])]
      | none =>
        simp only [List.filterMap_cons, h]
        apply List.find?_eq_none.mpr
        intro x hx hbx
        apply ha
        rw [← eq_of_beq hbx]
        exact (diffStories_ids_sublist l store ua).subset
          (List.mem_map_of_mem Story.Id hx)
    · have hne : s.Id ≠ a.Id := by
        intro he
        apply ha
        rw [← he]
        exact List.mem_map_of_mem Story.Id hsl
      cases h : diffStep (store a.Id) a ua with
      | some w =>
        simp only [List.filterMap_cons, h]
        rw [List.find?_cons_of_neg _ (by simp only [beq_iff_eq, diffStep_Id h]; exact fun he => hne he.symm)]
        exact ih hl hsl
      | none =>
        simp only [List.filterMap_cons, h]
        exact ih hl hsl

theorem applyWrites_eq (store : String → Option Story) (ws : List Story)
    (hw : (ws.map Story.Id).Nodup) (i : String) :
    applyWrites store ws i
      = match ws.find? (fun w => w.Id == i) with
        | some w => some w
        | none => store i := by
  induction ws generalizing store with
  | nil => rfl
  | cons w ws ih =>
    rw [List.map_cons, List.nodup_cons] at hw
    obtain ⟨ha, hl⟩ := hw
    show applyWrites (putStory store w) ws i = _
    rw [ih (putStory store w) hl]
    cases hp : (w.Id == i) with
    | true =>
      simp only [List.find?, hp]
      have hnone : ws.find? (fun w' => w'.Id == i) = none := by
        apply List.find?_eq_none.mpr
        intro x hx hbx
        apply ha
        rw [eq_of_beq hp, ← eq_of_beq hbx]
        exact List.mem_map_of_mem Story.Id hx
      rw [hnone]
      show putStory store w i = some w
      unfold putStory
      rw [if_pos (eq_of_beq hp).symm]
    | false =>
      simp only [List.find?, hp]
      cases hf : ws.find? (fun w' => w'.Id == i) with
      | some w' => rfl
      | none =>
        show putStory store w i = store i
        unfold putStory
        rw [if_neg]
        intro he
        rw [he] at hp
        simp at hp

theorem diffStories_after_writes (l : List Story) (store : String → Option Story)
    (ua : Bool) (hids : (l.map Story.Id).Nodup) :
    diffStories l (applyWrites store (diffStories l store ua)) false = [] := by
  apply List.filterMap_eq_nil_iff.mpr
  intro s hs
  have hnw : ((diffStories l store ua).map Story.Id).Nodup :=
    hids.sublist (diffStories_ids_sublist l store ua)
  rw [applyWrites_eq store _ hnw s.Id, diffStories_find l store ua hids hs]
  cases hp : store s.Id with
  | none =>
    show diffStep (some s) s false = none
    simp [diffStep]
  | some p =>
    cases hd : diffStep (some p) s ua with
    | some w =>
      show diffStep (some w) s false = none
      simp [diffStep, diffStep_Updated hd]
    | none =>
      show diffStep (some p) s false = none
      simp only [diffStep] at hd ⊢
      split_ifs at hd with hc
      · rw [if_neg]
        intro h'
        rcases h' with h' | h'
        · exact hc (Or.inl h')
        · simp at h'

/-- C2 counterexample: the first run takes the already-updated short
circuit (stored `Updated` 5 = parsed `Updated` 5), succeeds, and — as the
source does — overwrites the stored `Updated` with the current time; the
second run with the *identical* parsed feed and story set then fails the
short-circuit test and performs one Story write (the stored story has
update time 3, the incoming one 7), so re-running reconciliation on an
identical input is not universally a no-op. -/
theorem updateFeed_rerun_after_short_circuit_writes :
    (updateFeed (scheduleNextUpdate 100) updateAverage 100
        ⟨"u", "", "", 5, 0, 0, 0, 0, 0⟩ ⟨"u", "", "", 5, 0, 0, 0, 0, 0⟩
        [⟨"a", 0, 0, 7, "x"⟩]
        (fun i => if i = "a" then some ⟨"a", 1, 1, 3, "old"⟩ else none)
        false false false).shortCircuit = true ∧
      (updateFeed (scheduleNextUpdate 200) updateAverage 200
        (updateFeed (scheduleNextUpdate 100) updateAverage 100
          ⟨"u", "", "", 5, 0, 0, 0, 0, 0⟩ ⟨"u", "", "", 5, 0, 0, 0, 0, 0⟩
          [⟨"a", 0, 0, 7, "x"⟩]
          (fun i => if i = "a" then some ⟨"a", 1, 1, 3, "old"⟩ else none)
          false false false).feed
        ⟨"u", "", "", 5, 0, 0, 0, 0, 0⟩
        [⟨"a", 0, 0, 7, "x"⟩]
        (applyWrites (fun i => if i = "a" then some ⟨"a", 1, 1, 3, "old"⟩ else none)
          (updateFeed (scheduleNextUpdate 100) updateAverage 100
            ⟨"u", "", "", 5, 0, 0, 0, 0, 0⟩ ⟨"u", "", "", 5, 0, 0, 0, 0, 0⟩
            [⟨"a", 0, 0, 7, "x"⟩]
            (fun i => if i = "a" then some ⟨"a", 1, 1, 3, "old"⟩ else none)
            false false false).storyWrites)
        false false false).storyWrites.length = 1 := by
  constructor
  · rfl
  · rfl

/-- C2 (amended): provided the parsed stories carry pairwise-distinct
identities and the first run actually applied the story set (it did not
take the already-updated short circuit), re-running `updateFeed` with
the identical parsed feed and story set against the state left by the
first run performs zero Story writes and leaves the persisted
consecutive-error count unchanged, for any scheduling functions, clock
values and `fromSub`/`updateLast` flags on either run. -/
theorem updateFeed_idempotent (sched1 sched2 : Feed → Nat)
    (updAvg1 updAvg2 : Nat → Nat → Nat → Nat → Nat) (now1 now2 : Nat)
    (f0 feed : Feed) (stories : List Story) (store : String → Option Story)
    (ua1 fs1 ul1 fs2 ul2 : Bool)
    (hids : (stories.map Story.Id).Nodup)
    (hfirst : (updateFeed sched1 updAvg1 now1 f0 feed stories store ua1 fs1 ul1).shortCircuit
      = false) :
    (updateFeed sched2 updAvg2 now2
        (updateFeed sched1 updAvg1 now1 f0 feed stories store ua1 fs1 ul1).feed
        feed stories
        (applyWrites store
          (updateFeed sched1 updAvg1 now1 f0 feed stories store ua1 fs1 ul1).storyWrites)
        false fs2 ul2).storyWrites = [] ∧
      (updateFeed sched2 updAvg2 now2
        (updateFeed sched1 updAvg1 now1 f0 feed stories store ua1 fs1 ul1).feed
        feed stories
        (applyWrites store
          (updateFeed sched1 updAvg1 now1 f0 feed stories store ua1 fs1 ul1).storyWrites)
        false fs2 ul2).feed.Errors
      = (updateFeed sched1 updAvg1 now1 f0 feed stories store ua1 fs1 ul1).feed.Errors := by
  have hsc1 : alreadyUpdated f0 feed ua1 fs1 = false := by
    rw [← updateFeed_shortCircuit sched1 updAvg1 now1 f0 feed stories store ua1 fs1 ul1]
    exact hfirst
  have h1w : (updateFeed sched1 updAvg1 now1 f0 feed stories store ua1 fs1 ul1).storyWrites
      = diffStories stories store ua1 := by
    rw [updateFeed_storyWrites, hsc1]
    rfl
  constructor
  · rw [updateFeed_storyWrites]
    split_ifs with h
    · rfl
    · rw [h1w]
      exact diffStories_after_writes stories store ua1 hids
  · rw [updateFeed_errors, updateFeed_errors]

/-- C2 witness: the amended idempotence applied to a concrete first run
that writes one new story. -/
theorem updateFeed_idempotent_witness :
    (([⟨"a", 0, 0, 7, "x"⟩] : List Story).map Story.Id).Nodup ∧
      (updateFeed (scheduleNextUpdate 100) updateAverage 100
        ⟨"u", "", "", 0, 0, 0, 0, 0, 0⟩ ⟨"u", "", "", 9, 0, 0, 0, 0, 0⟩
        [⟨"a", 0, 0, 7, "x"⟩] (fun _ => none) false false false).shortCircuit = false ∧
      ((updateFeed (scheduleNextUpdate 200) updateAverage 200
        (updateFeed (scheduleNextUpdate 100) updateAverage 100
          ⟨"u", "", "", 0, 0, 0, 0, 0, 0⟩ ⟨"u", "", "", 9, 0, 0, 0, 0, 0⟩
          [⟨"a", 0, 0, 7, "x"⟩] (fun _ => none) false false false).feed
        ⟨"u", "", "", 9, 0, 0, 0, 0, 0⟩
        [⟨"a", 0, 0, 7, "x"⟩]
        (applyWrites (fun _ => none)
          (updateFeed (scheduleNextUpdate 100) updateAverage 100
            ⟨"u", "", "", 0, 0, 0, 0, 0, 0⟩ ⟨"u", "", "", 9, 0, 0, 0, 0, 0⟩
            [⟨"a", 0, 0, 7, "x"⟩] (fun _ => none) false false false).storyWrites)
        false false false).storyWrites = [] ∧
      (updateFeed (scheduleNextUpdate 200) updateAverage 200
        (updateFeed (scheduleNextUpdate 100) updateAverage 100
          ⟨"u", "", "", 0, 0, 0, 0, 0, 0⟩ ⟨"u", "", "", 9, 0, 0, 0, 0, 0⟩
          [⟨"a", 0, 0, 7, "x"⟩] (fun _ => none) false false false).feed
        ⟨"u", "", "", 9, 0, 0, 0, 0, 0⟩
        [⟨"a", 0, 0, 7, "x"⟩]
        (applyWrites (fun _ => none)
          (updateFeed (scheduleNextUpdate 100) updateAverage 100
            ⟨"u", "", "", 0, 0, 0, 0, 0, 0⟩ ⟨"u", "", "", 9, 0, 0, 0, 0, 0⟩
            [⟨"a", 0, 0, 7, "x"⟩] (fun _ => none) false false false).storyWrites)
        false false false).feed.Errors
      = (updateFeed (scheduleNextUpdate 100) updateAverage 100
          ⟨"u", "", "", 0, 0, 0, 0, 0, 0⟩ ⟨"u", "", "", 9, 0, 0, 0, 0, 0⟩
          [⟨"a", 0, 0, 7, "x"⟩] (fun _ => none) false false false).feed.Errors) :=
  ⟨by simp, by rfl,
    updateFeed_idempotent (scheduleNextUpdate 100) (scheduleNextUpdate 200)
      updateAverage updateAverage 100 200
      ⟨"u", "", "", 0, 0, 0, 0, 0, 0⟩ ⟨"u", "", "", 9, 0, 0, 0, 0, 0⟩
      [⟨"a", 0, 0, 7, "x"⟩] (fun _ => none) false false false false false
      (by simp) (by rfl)⟩

/-- C3: every story record written by a reconciliation whose identity
has a prior stored record with non-zero `created` keeps that prior
`created` value, whatever the parsed story claims and whatever the
`updateAll`/`fromSub`/`updateLast` flags are; unwritten stories keep
their stored record untouched, so a `created` time, once set, never
changes. -/
theorem story_created_immutable (sched : Feed → Nat)
    (updAvg : Nat → Nat → Nat → Nat → Nat) (now : Nat) (f0 feed : Feed)
    (stories : List Story) (store : String → Option Story) (ua fs ul : Bool)
    (w p : Story)
    (hw : w ∈ (updateFeed sched updAvg now f0 feed stories store ua fs ul).storyWrites)
    (hp : store w.Id = some p) (hc : p.Created ≠ 0) :
    w.Created = p.Created := by
  rw [updateFeed_storyWrites] at hw
  split_ifs at hw
  · cases hw
  · obtain ⟨s, hs, hstep⟩ := mem_diffStories hw
    rw [diffStep_Id hstep] at hp
    rw [hp] at hstep
    simp only [diffStep] at hstep
    split_ifs at hstep with hcond
    · simp only [Option.some.injEq] at hstep
      rw [← hstep, carryForward_Created, if_pos hc]

/-- C3 witness: a stored story with `created = 5` is rewritten on a
content change and the write keeps `created = 5`. -/
theorem story_created_immutable_witness :
    (⟨"a", 5, 0, 7, "new"⟩ : Story) ∈
        (updateFeed (scheduleNextUpdate 100) updateAverage 100
          ⟨"u", "", "", 0, 0, 0, 0, 0, 0⟩ ⟨"u", "", "", 9, 0, 0, 0, 0, 0⟩
          [⟨"a", 0, 0, 7, "new"⟩]
          (fun i => if i = "a" then some ⟨"a", 5, 0, 3, "old"⟩ else none)
          false false false).storyWrites ∧
      (fun i => if i = "a" then some (⟨"a", 5, 0, 3, "old"⟩ : Story) else none)
          (Story.Id ⟨"a", 5, 0, 7, "new"⟩) = some ⟨"a", 5, 0, 3, "old"⟩ ∧
      (⟨"a", 5, 0, 3, "old"⟩ : Story).Created ≠ 0 ∧
      (⟨"a", 5, 0, 7, "new"⟩ : Story).Created = (⟨"a", 5, 0, 3, "old"⟩ : Story).Created :=
  ⟨by decide, by decide, by decide,
    story_created_immutable (scheduleNextUpdate 100) updateAverage 100
      ⟨"u", "", "", 0, 0, 0, 0, 0, 0⟩ ⟨"u", "", "", 9, 0, 0, 0, 0, 0⟩
      [⟨"a", 0, 0, 7, "new"⟩]
      (fun i => if i = "a" then some ⟨"a", 5, 0, 3, "old"⟩ else none)
      false false false ⟨"a", 5, 0, 7, "new"⟩ ⟨"a", 5, 0, 3, "old"⟩
      (by decide) (by decide) (by decide)⟩

/-- The `StoryContent` datastore entity (declared outside these sources,
fields fixed by their uses in main.go 727-739): `Compressed` holds gzip
bytes, `Content` the raw body; empty means unpopulated. -/
structure StoryContent where
  Compressed : List Nat
  Content : String
deriving Repr, DecidableEq

/-- The per-story content write of `updateFeed` (main.go 725-744): gzip
the body at best compression into `Compressed` when the writer can be
created, and store the raw body in `Content` only when `Compressed`
ended up empty. `gz` models the gzip library: `some bs` when
`gzip.NewWriterLevel` succeeds and produces the stream `bs`, `none` when
it fails (its error branch). -/
def mkStoryContent (gz : String → Option (List Nat)) (content : String) :
    StoryContent :=
  let compressed : List Nat :=
    match gz content with
    | some bs => bs
    | none => []
  { Compressed := compressed
    Content := if compressed = [] then content else "" }

/-- C6: for every StoryContent record written during reconciliation,
exactly one of `Compressed` and `Content` is populated, and `Content`
is populated only when compression failed — under the gzip library
contract that a successful compression always produces a non-empty
stream (a gzip stream starts with a 10-byte header, and
`gzip.NewWriterLevel` at `BestCompression` in fact never fails). The
source never stores raw bytes because of a mere lack of size savings:
the raw slot is used only on the (impossible) writer-creation failure. -/
theorem storyContent_exactly_one (gz : String → Option (List Nat)) (content : String)
    (hgz : ∀ s, ∃ bs, gz s = some bs ∧ bs ≠ []) :
    (((mkStoryContent gz content).Compressed ≠ [] ∧
        (mkStoryContent gz content).Content = "") ∨
      ((mkStoryContent gz content).Compressed = [] ∧
        (mkStoryContent gz content).Content ≠ "")) ∧
      ((mkStoryContent gz content).Content ≠ "" → gz content = none) := by
  obtain ⟨bs, hbs, hne⟩ := hgz content
  unfold mkStoryContent
  rw [hbs]
  constructor
  · left
    constructor
    · exact hne
    · show (if bs = [] then content else "") = ""
      rw [if_neg hne]
  · intro h
    exfalso
    apply h
    show (if bs = [] then content else "") = ""
    rw [if_neg hne]

/-- C6 witness: the exactly-one property at a concrete compressor and
body. -/
theorem storyContent_exactly_one_witness :
    (∀ s : String, ∃ bs, (fun _ : String => some [31, 139, 8]) s = some bs ∧ bs ≠ []) ∧
      ((((mkStoryContent (fun _ => some [31, 139, 8]) "hello").Compressed ≠ [] ∧
          (mkStoryContent (fun _ => some [31, 139, 8]) "hello").Content = "") ∨
        ((mkStoryContent (fun _ => some [31, 139, 8]) "hello").Compressed = [] ∧
          (mkStoryContent (fun _ => some [31, 139, 8]) "hello").Content ≠ "")) ∧
      ((mkStoryContent (fun _ => some [31, 139, 8]) "hello").Content ≠ "" →
        (fun _ : String => some [31, 139, 8]) "hello" = none)) :=
  ⟨fun _ => ⟨[31, 139, 8], rfl, by decide⟩,
    storyContent_exactly_one (fun _ => some [31, 139, 8]) "hello"
      (fun _ => ⟨[31, 139, 8], rfl, by decide⟩)⟩

/-- The response-size ceiling of `fetchFeed` (main.go 623): `1 << 21`
bytes (2 MiB). -/
def feedSizeLimit : Nat := 2 ^ 21

/-- The body-read stage of `fetchFeed` (main.go 622-632): the response
body is read through an `io.LimitedReader` with budget `feedSizeLimit`,
so at most that many bytes are read; if the budget is exhausted
(`reader.N == 0`, i.e. the body had at least `feedSizeLimit` bytes) the
attempt fails with an error, otherwise the bytes read are handed on to
autodiscovery/`ParseFeed` as feed data (`Except.ok`). -/
def fetchFeedBody (body : List Nat) : Except String (List Nat) :=
  let b := body.take feedSizeLimit
  if feedSizeLimit - b.length = 0 then Except.error "feed larger than limit"
  else Except.ok b

/-- C9: every fetch whose response body exceeds the 2 MiB ceiling fails
for this attempt, and the truncated bytes are never handed on as feed
data. -/
theorem fetchFeed_oversized_error (body : List Nat)
    (h : body.length > feedSizeLimit) :
    fetchFeedBody body = Except.error "feed larger than limit" ∧
      ∀ b, fetchFeedBody body ≠ Except.ok b := by
  have hlen : (body.take feedSizeLimit).length = feedSizeLimit := by
    rw [List.length_take]
    omega
  have hmain : fetchFeedBody body = Except.error "feed larger than limit" := by
    unfold fetchFeedBody
    rw [if_pos]
    omega
  refine ⟨hmain, fun b hb => ?_⟩
  rw [hmain] at hb
  cases hb

/-- C9 witness: a body one byte over the ceiling is rejected. -/
theorem fetchFeed_oversized_error_witness :
    (List.replicate 2097153 (0 : Nat)).length > feedSizeLimit ∧
      fetchFeedBody (List.replicate 2097153 (0 : Nat))
        = Except.error "feed larger than limit" :=
  ⟨by rw [List.length_replicate]; norm_num [feedSizeLimit],
    (fetchFeed_oversized_error (List.replicate 2097153 0)
      (by rw [List.length_replicate]; norm_num [feedSizeLimit])).1⟩

/-- One node of the subscription-list tree. Modelled from the spec
(§3, §6: a node carries a title, a feed URL if it is a leaf, and a list
of children) and the uses in `mergeUserOpml`; the Go `OpmlOutline`
struct itself is declared outside these sources. -/
inductive OpmlOutline where
  | mk (Title : String) (XmlUrl : String) (Outline : List OpmlOutline)
deriving Repr

def OpmlOutline.Title : OpmlOutline → String
  | .mk t _ _ => t

def OpmlOutline.XmlUrl : OpmlOutline → String
  | .mk _ u _ => u

def OpmlOutline.Outline : OpmlOutline → List OpmlOutline
  | .mk _ _ ch => ch

/-- The URL set built at the start of `mergeUserOpml` (main.go 180-190):
top-level leaves contribute their URL, and every child of a top-level
folder contributes its URL. -/
def urlsOf (fs : List OpmlOutline) : List String :=
  fs.foldl
    (fun acc o =>
      if o.XmlUrl ≠ "" then o.XmlUrl :: acc
      else acc ++ o.Outline.map OpmlOutline.XmlUrl)
    []

/-- The folder-append scan of `mergeOutline` (main.go 201-208): find the
first top-level node with the given title and an empty URL and append
the outline to its children (through the shared pointer in Go); `none`
when no such folder exists. -/
def addToFolder (label : String) (outline : OpmlOutline) :
    List OpmlOutline → Option (List OpmlOutline)
  | [] => none
  | ol :: rest =>
    if ol.Title = label ∧ ol.XmlUrl = "" then
      some (OpmlOutline.mk ol.Title ol.XmlUrl (ol.Outline ++ [outline]) :: rest)
    else
      match addToFolder label outline rest with
      | some rest2 => some (ol :: rest2)
      | none => none

/-- The state threaded through one merge: the URL set and the top-level
outline list. -/
structure MergeState where
  urls : List String
  tree : List OpmlOutline
deriving Repr

/-- The `mergeOutline` closure of `mergeUserOpml` (main.go 192-217):
skip a URL already present, otherwise record it and append the leaf at
top level (empty label), into the first matching folder, or into a
freshly created folder. -/
def mergeOutline (st : MergeState) (label : String) (outline : OpmlOutline) :
    MergeState :=
  if outline.XmlUrl ∈ st.urls then st
  else
    let urls2 := outline.XmlUrl :: st.urls
    if label = "" then ⟨urls2, st.tree ++ [outline]⟩
    else
      match addToFolder label outline st.tree with
      | some tree2 => ⟨urls2, tree2⟩
      | none => ⟨urls2, st.tree ++ [OpmlOutline.mk label "" [outline]]⟩

/-- `mergeUserOpml` (main.go 177-235) on the decoded tree: build the URL
set, then merge each incoming outline — a leaf directly, a folder by
merging each child under the folder's title — and return the tree that
is re-serialized and persisted. -/
def mergeUserOpml (fs : List OpmlOutline) (outlines : List OpmlOutline) :
    List OpmlOutline :=
  (outlines.foldl
    (fun st outline =>
      if outline.XmlUrl ≠ "" then mergeOutline st "" outline
      else outline.Outline.foldl (fun st2 o => mergeOutline st2 outline.Title o) st)
    ⟨urlsOf fs, fs⟩).tree

/-- The URLs the merge loop would process for one incoming outline: the
outline's own URL for a leaf, its children's URLs for a folder
(main.go 219-227). -/
def leafUrls (o : OpmlOutline) : List String :=
  if o.XmlUrl ≠ "" then [o.XmlUrl] else o.Outline.map OpmlOutline.XmlUrl

/-- A deterministic stand-in for the `encoding/json` serialization of
the persisted two-level subscription tree (`ud.Opml`): the bytes are a
function of the tree, so equal trees serialize to equal bytes. -/
def serializeNode (o : OpmlOutline) : String :=
  "n(" ++ o.Title ++ ";" ++ o.XmlUrl ++ ";" ++
    String.intercalate ","
      (o.Outline.map (fun c => "l(" ++ c.Title ++ ";" ++ c.XmlUrl ++ ")")) ++ ")"

/-- Serialization of the whole persisted tree. -/
def serializeOpml (fs : List OpmlOutline) : String :=
  String.intercalate "," (fs.map serializeNode)

theorem mergeOutline_present (st : MergeState) (label : String) (o : OpmlOutline)
    (h : o.XmlUrl ∈ st.urls) : mergeOutline st label o = st := by
  unfold mergeOutline
  rw [if_pos h]

theorem children_fold_present (label : String) (children : List OpmlOutline) :
    ∀ st : MergeState, (∀ o ∈ children, o.XmlUrl ∈ st.urls) →
      children.foldl (fun st2 o => mergeOutline st2 label o) st = st := by
  induction children with
  | nil => intro st _; rfl
  | cons c cs ih =>
    intro st h
    rw [List.foldl_cons, mergeOutline_present st label c (h c (by simp))]
    exact ih st (fun o ho => h o (by simp [ho]))

theorem outlines_fold_present (outlines : List OpmlOutline) :
    ∀ st : MergeState, (∀ o ∈ outlines, ∀ u ∈ leafUrls o, u ∈ st.urls) →
      outlines.foldl
        (fun st outline =>
          if outline.XmlUrl ≠ "" then mergeOutline st "" outline
          else outline.Outline.foldl (fun st2 o => mergeOutline st2 outline.Title o) st)
        st = st := by
  induction outlines with
  | nil => intro st _; rfl
  | cons o os ih =>
    intro st h
    rw [List.foldl_cons]
    have hstep :
        (if o.XmlUrl ≠ "" then mergeOutline st "" o
          else o.Outline.foldl (fun st2 c => mergeOutline st2 o.Title c) st) = st := by
      by_cases ho : o.XmlUrl ≠ ""
      · rw [if_pos ho]
        apply mergeOutline_present
        have := h o (by simp) o.XmlUrl
        rw [leafUrls, if_pos ho] at this
        exact this (by simp)
      · rw [if_neg ho]
        apply children_fold_present
        intro c hc
        have := h o (by simp) c.XmlUrl
        rw [leafUrls, if_neg ho] at this
        exact this (List.mem_map_of_mem OpmlOutline.XmlUrl hc)
    rw [hstep]
    exact ih st (fun o2 ho2 => h o2 (by simp [ho2]))

/-- C7: merging outlines all of whose leaf URLs already occur somewhere
in the user's tree (top level or one level under a folder, exactly the
URLs collected by `urlsOf`) leaves the decoded tree unchanged, and hence
the re-serialized persisted bytes equal to the bytes of the prior tree. -/
theorem mergeUserOpml_noop (fs outlines : List OpmlOutline)
    (h : ∀ o ∈ outlines, ∀ u ∈ leafUrls o, u ∈ urlsOf fs) :
    mergeUserOpml fs outlines = fs ∧
      serializeOpml (mergeUserOpml fs outlines) = serializeOpml fs := by
  have htree : mergeUserOpml fs outlines = fs := by
    unfold mergeUserOpml
    rw [outlines_fold_present outlines ⟨urlsOf fs, fs⟩ h]
  exact ⟨htree, by rw [htree]⟩

/-- C7 witness: a merge whose two leaves (one top-level, one under a
folder label) are both already present, at top level and nested
respectively, is a no-op. -/
theorem mergeUserOpml_noop_witness :
    (∀ o ∈ [OpmlOutline.mk "Z" "http://x" [],
        OpmlOutline.mk "F" "" [OpmlOutline.mk "W" "http://y" []]],
      ∀ u ∈ leafUrls o,
        u ∈ urlsOf [OpmlOutline.mk "X" "http://x" [],
          OpmlOutline.mk "F" "" [OpmlOutline.mk "Y" "http://y" []]]) ∧
      mergeUserOpml
          [OpmlOutline.mk "X" "http://x" [],
            OpmlOutline.mk "F" "" [OpmlOutline.mk "Y" "http://y" []]]
          [OpmlOutline.mk "Z" "http://x" [],
            OpmlOutline.mk "F" "" [OpmlOutline.mk "W" "http://y" []]]
        = [OpmlOutline.mk "X" "http://x" [],
            OpmlOutline.mk "F" "" [OpmlOutline.mk "Y" "http://y" []]] ∧
      serializeOpml (mergeUserOpml
          [OpmlOutline.mk "X" "http://x" [],
            OpmlOutline.mk "F" "" [OpmlOutline.mk "Y" "http://y" []]]
          [OpmlOutline.mk "Z" "http://x" [],
            OpmlOutline.mk "F" "" [OpmlOutline.mk "W" "http://y" []]])
        = serializeOpml [OpmlOutline.mk "X" "http://x" [],
            OpmlOutline.mk "F" "" [OpmlOutline.mk "Y" "http://y" []]] := by
  refine ⟨?_, ?_⟩
  · intro o ho u hu
    fin_cases ho <;> revert hu <;> simp [leafUrls, urlsOf, OpmlOutline.XmlUrl,
      OpmlOutline.Outline] <;> intro hu <;> simp [hu]
  · exact mergeUserOpml_noop _ _ (by
      intro o ho u hu
      fin_cases ho <;> revert hu <;> simp [leafUrls, urlsOf, OpmlOutline.XmlUrl,
        OpmlOutline.Outline] <;> intro hu <;> simp [hu])

/-- C8 counterexample: two leaves with the same new folder label "F" and
the *same* URL, neither present in the (empty) current tree, produce one
folder containing only the first leaf — the second is skipped by the URL
set updated during the merge — so the folder does not contain both
leaves as the claim states. -/
theorem mergeUserOpml_duplicate_url_not_both :
    mergeUserOpml []
        [OpmlOutline.mk "F" "" [OpmlOutline.mk "A" "http://u" []],
          OpmlOutline.mk "F" "" [OpmlOutline.mk "B" "http://u" []]]
      = [OpmlOutline.mk "F" "" [OpmlOutline.mk "A" "http://u" []]] ∧
      OpmlOutline.mk "B" "http://u" [] ∉
        (OpmlOutline.mk "F" "" [OpmlOutline.mk "A" "http://u" []]).Outline := by
  constructor
  · rfl
  · intro hmem
    rw [OpmlOutline.Outline] at hmem
    have h := List.mem_singleton.mp hmem
    injection h with hT hU hO
    exact absurd hT (by decide)

theorem addToFolder_none (label : String) (o : OpmlOutline) :
    ∀ fs : List OpmlOutline, (∀ ol ∈ fs, ¬(ol.Title = label ∧ ol.XmlUrl = "")) →
      addToFolder label o fs = none := by
  intro fs
  induction fs with
  | nil => intro _; rfl
  | cons a l ih =>
    intro h
    simp only [addToFolder]
    rw [if_neg (h a (by simp)), ih (fun ol hol => h ol (by simp [hol]))]

theorem addToFolder_append (label : String) (o : OpmlOutline) (ch : List OpmlOutline) :
    ∀ fs : List OpmlOutline, (∀ ol ∈ fs, ¬(ol.Title = label ∧ ol.XmlUrl = "")) →
      addToFolder label o (fs ++ [OpmlOutline.mk label "" ch])
        = some (fs ++ [OpmlOutline.mk label "" (ch ++ [o])]) := by
  intro fs
  induction fs with
  | nil =>
    intro _
    simp only [List.nil_append, addToFolder]
    rw [if_pos ⟨rfl, rfl⟩]
    rfl
  | cons a l ih =>
    intro h
    simp only [List.cons_append, addToFolder, List.append_eq]
    rw [if_neg (h a (by simp)), ih (fun ol hol => h ol (by simp [hol]))]

/-- C8 (amended): merging, in one call, two leaves that carry the same
non-empty folder label and *distinct* URLs neither of which is present
in the current tree, when no top-level folder with that label exists,
appends exactly one folder node with that label, containing exactly the
two leaves in order (for leaves with equal URLs the second is dropped,
per the counterexample). -/
theorem mergeUserOpml_single_folder (fs : List OpmlOutline) (L : String)
    (l1 l2 : OpmlOutline) (hL : L ≠ "")
    (h1 : l1.XmlUrl ∉ urlsOf fs) (h2 : l2.XmlUrl ∉ urlsOf fs)
    (h12 : l1.XmlUrl ≠ l2.XmlUrl)
    (hnf : ∀ ol ∈ fs, ¬(ol.Title = L ∧ ol.XmlUrl = "")) :
    mergeUserOpml fs [OpmlOutline.mk L "" [l1], OpmlOutline.mk L "" [l2]]
        = fs ++ [OpmlOutline.mk L "" [l1, l2]] ∧
      (fs ++ [OpmlOutline.mk L "" [l1, l2]]).filter
          (fun ol => ol.Title == L && ol.XmlUrl == "")
        = [OpmlOutline.mk L "" [l1, l2]] := by
  have hm1 : mergeOutline ⟨urlsOf fs, fs⟩ L l1
      = ⟨l1.XmlUrl :: urlsOf fs, fs ++ [OpmlOutline.mk L "" [l1]]⟩ := by
    unfold mergeOutline
    rw [if_neg h1]
    dsimp only
    rw [if_neg hL, addToFolder_none L l1 fs hnf]
  have hm2 : mergeOutline ⟨l1.XmlUrl :: urlsOf fs, fs ++ [OpmlOutline.mk L "" [l1]]⟩ L l2
      = ⟨l2.XmlUrl :: l1.XmlUrl :: urlsOf fs, fs ++ [OpmlOutline.mk L "" [l1, l2]]⟩ := by
    unfold mergeOutline
    rw [if_neg]
    · dsimp only
      rw [if_neg hL, addToFolder_append L l2 [l1] fs hnf]
      rfl
    · intro hmem
      rcases List.mem_cons.mp hmem with he | hin
      · exact h12 he.symm
      · exact h2 hin
  have htree : mergeUserOpml fs [OpmlOutline.mk L "" [l1], OpmlOutline.mk L "" [l2]]
      = fs ++ [OpmlOutline.mk L "" [l1, l2]] := by
    unfold mergeUserOpml
    rw [List.foldl_cons, List.foldl_cons, List.foldl_nil]
    simp only [OpmlOutline.XmlUrl, OpmlOutline.Title, OpmlOutline.Outline]
    rw [if_neg (by simp), if_neg (by simp), List.foldl_cons, List.foldl_nil,
      List.foldl_cons, List.foldl_nil, hm1, hm2]
  refine ⟨htree, ?_⟩
  rw [List.filter_append]
  have hnil : fs.filter (fun ol => ol.Title == L && ol.XmlUrl == "") = [] := by
    apply List.filter_eq_nil_iff.mpr
    intro a ha hb
    simp only [Bool.and_eq_true, beq_iff_eq] at hb
    exact hnf a ha hb
  rw [hnil]
  simp [List.filter, OpmlOutline.Title, OpmlOutline.XmlUrl]

/-- C8 witness: the amended single-folder property at a concrete tree
and two concrete labelled leaves. -/
theorem mergeUserOpml_single_folder_witness :
    ("News" : String) ≠ "" ∧
      (OpmlOutline.mk "A" "http://a" []).XmlUrl
        ∉ urlsOf [OpmlOutline.mk "X" "http://x" []] ∧
      (OpmlOutline.mk "B" "http://b" []).XmlUrl
        ∉ urlsOf [OpmlOutline.mk "X" "http://x" []] ∧
      (OpmlOutline.mk "A" "http://a" []).XmlUrl
        ≠ (OpmlOutline.mk "B" "http://b" []).XmlUrl ∧
      (∀ ol ∈ [OpmlOutline.mk "X" "http://x" []],
        ¬(ol.Title = "News" ∧ ol.XmlUrl = "")) ∧
      (mergeUserOpml [OpmlOutline.mk "X" "http://x" []]
          [OpmlOutline.mk "News" "" [OpmlOutline.mk "A" "http://a" []],
            OpmlOutline.mk "News" "" [OpmlOutline.mk "B" "http://b" []]]
        = [OpmlOutline.mk "X" "http://x" []] ++
            [OpmlOutline.mk "News" ""
              [OpmlOutline.mk "A" "http://a" [], OpmlOutline.mk "B" "http://b" []]] ∧
      ([OpmlOutline.mk "X" "http://x" []] ++
          [OpmlOutline.mk "News" ""
            [OpmlOutline.mk "A" "http://a" [], OpmlOutline.mk "B" "http://b" []]]).filter
          (fun ol => ol.Title == "News" && ol.XmlUrl == "")
        = [OpmlOutline.mk "News" ""
            [OpmlOutline.mk "A" "http://a" [], OpmlOutline.mk "B" "http://b" []]]) := by
  refine ⟨by decide, ?_, ?_, by decide, ?_, ?_⟩
  · simp [urlsOf, OpmlOutline.XmlUrl]
  · simp [urlsOf, OpmlOutline.XmlUrl]
  · intro ol hol
    rcases List.mem_singleton.mp hol with h
    subst h
    simp [OpmlOutline.Title, OpmlOutline.XmlUrl]
  · exact mergeUserOpml_single_folder [OpmlOutline.mk "X" "http://x" []] "News"
      (OpmlOutline.mk "A" "http://a" []) (OpmlOutline.mk "B" "http://b" [])
      (by decide)
      (by simp [urlsOf, OpmlOutline.XmlUrl])
      (by simp [urlsOf, OpmlOutline.XmlUrl])
      (by decide)
      (by
        intro ol hol
        rcases List.mem_singleton.mp hol with h
        subst h
        simp [OpmlOutline.Title, OpmlOutline.XmlUrl])

end Goread
